import Mathlib

/-!
The irccd daemon: channel registry, line framing, keepalive and reader retry.

A shallow embedding of the two variants of `irccd.c`:

* `src/src/irccd.c` (the FIFO-driven daemon): `send_msg`, `read_msg`, `spawn_reader`,
  `add_chan`, `rm_chan`, `sendlogin`, `chan_name_check` and the `JOIN_MOD` / `PART_MOD` /
  `CONN_MOD` cases of `main`.  They live in the namespace `Fifo`.
* `src/irccd.c` (the `libistr` based rewrite): `send_msg`, `read_line`, `login`.  They live in
  the namespace `Istr`.

A C string is modelled by the list of its characters before the terminating NUL.  The channel
list `Channel *head` (a sentinel head node followed by the entries) is modelled by the list of
the names of the nodes after the sentinel.  Everything written to stdout / stderr is a log and
is left out; what is handed to `send(2)` is recorded.
-/

namespace Irccd

/-- A C string: its characters up to, not including, the terminating NUL. -/
abbrev CStr := List Char

namespace Fifo

/-! ## Channel list (`src/src/irccd.c`, lines 138-180) -/

/-- Function `add_chan(head, chan_name)`: walk the list from the sentinel; a node whose name compares
equal makes the function return `1`; at the end a node is allocated and linked.  `alloc` says
whether `malloc` succeeds; when it fails, `tmp->next` receives `NULL` (the list is as before)
and `-1` is returned.  The argument is the list after the sentinel (`tmp->next`). -/
def add_chan (alloc : Bool) : List CStr → CStr → Int × List CStr
  | [], chan_name => if alloc then (0, [chan_name]) else (-1, [])
  | c :: rest, chan_name =>
    if c = chan_name then (1, c :: rest)
    else ((add_chan alloc rest chan_name).1, c :: (add_chan alloc rest chan_name).2)

/-- Function `rm_chan(head, chan_name)`: walk the list; the first node whose name compares equal is
unlinked and freed and `0` is returned; when no node matches, `1` is returned. -/
def rm_chan : List CStr → CStr → Int × List CStr
  | [], _ => (1, [])
  | c :: rest, chan_name =>
    if c ≠ chan_name then ((rm_chan rest chan_name).1, c :: (rm_chan rest chan_name).2)
    else (0, rest)

/-- The registries that `add_chan` (with a successful or a failed allocation) and `rm_chan`
can build, starting from the list that holds the sentinel only. -/
inductive Reachable : List CStr → Prop
  | empty : Reachable []
  | add (alloc : Bool) (reg : List CStr) (x : CStr) :
      Reachable reg → Reachable (add_chan alloc reg x).2
  | rm (reg : List CStr) (x : CStr) : Reachable reg → Reachable (rm_chan reg x).2


/-! ## Buffers and the socket (`src/src/irccd.c`) -/

/-- Constant `PIPE_BUF` of `<limits.h>` on Linux, the size of the buffers `buf`, `out`, `pos` and
`recvline`. -/
def PIPE_BUF : Nat := 4096

/-- Writing the C string `s` (and its NUL) into a `char` array of `size` bytes with `strcpy` or
`sprintf`: `none` when the write runs past the end of the array, which C leaves undefined. -/
def store (size : Nat) (s : CStr) : Option CStr :=
  if s.length < size then some s else none

/-- Function `send_msg(sockfd, out)`: hands the C string `out` to `send(2)` and returns what `send`
returned.  `n` is that return value; `wire` lists the buffers handed to the socket so far. -/
def send_msg (n : Int) (wire : List CStr) (out : CStr) : Int × List CStr :=
  (n, wire ++ [out])

/-- Function `strstr(haystack, needle)`: the suffix of `haystack` that starts at the first occurrence
of `needle`, `none` (NULL) when there is none. -/
def strstr : CStr → CStr → Option CStr
  | [], needle => if needle = [] then some [] else none
  | c :: hay, needle =>
    if needle.isPrefixOf (c :: hay) then some (c :: hay) else strstr hay needle

/-- Function `read_msg(sockfd, recvline)`: `n` is what `read(2)` returned and `recvline` the C string
then found in the (zeroed beforehand) buffer; `sendRet` is what `send(2)` returns if it is
called.  The result is the returned `n` and the buffers handed to the socket; `none` stands for
undefined behaviour: `strstr(recvline, " ")` is NULL and `NULL + 1` is read by `sprintf`, or
`sprintf` runs past `out[PIPE_BUF]`. -/
def read_msg (n sendRet : Int) (recvline : CStr) (wire : List CStr) :
    Option (Int × List CStr) :=
  if 0 < n ∧ (strstr recvline "PING".toList).isSome then
    match strstr recvline " ".toList with
    | none => none
    | some sp =>
      match store PIPE_BUF ("PONG ".toList ++ sp.tail ++ "\r\n".toList) with
      | none => none
      | some out => some (n, (send_msg sendRet wire out).2)
  else some (n, wire)

/-! ## The reader loop (`spawn_reader`, lines 115-136) -/

/-- State of the forked reader: inside the `while (1)` loop with its `timer`, or gone through
`exit(1)`. -/
inductive Reader
  | running (timer : Int)
  | exited
  deriving DecidableEq

/-- One iteration of the loop of `spawn_reader`; `r` is what `read_msg` returned and
`PING_TIMEOUT` the constant of `irccd.h` (`src/irccd.c` defines it as 300). -/
def reader_iter (PING_TIMEOUT : Int) (timer r : Int) : Reader :=
  let timer1 := if r ≤ 0 then timer + 1 else 0
  if timer1 ≥ PING_TIMEOUT then Reader.exited else Reader.running timer1

/-- The loop of `spawn_reader` run over the successive results of `read_msg`; after `exit(1)`
nothing is executed any more. -/
def spawn_reader (PING_TIMEOUT : Int) : Reader → List Int → Reader
  | s, [] => s
  | Reader.exited, _ :: _ => Reader.exited
  | Reader.running timer, r :: rs =>
    spawn_reader PING_TIMEOUT (reader_iter PING_TIMEOUT timer r) rs

/-- Number of failed reads (`r ≤ 0`) at the end of the sequence `rs`, counted back to the last
successful read. -/
def trailingFailures (rs : List Int) : Nat :=
  (rs.reverse.takeWhile (fun r => decide (r ≤ 0))).length

/-! ## Login and the dispatcher cases of `main` -/

/-- Function `sendlogin(sockfd, nick, realname)`: one buffer with both lines; the format string ends in
the literal `:nick` and `realname` is not used.  `none`: `sprintf` runs past `out[PIPE_BUF]`. -/
def sendlogin (sendRet : Int) (wire : List CStr) (nick _realname : CStr) :
    Option (Int × List CStr) :=
  match store PIPE_BUF
      ("NICK ".toList ++ nick ++ "\r\nUSER ".toList ++ nick ++ " 8 * :nick\r\n".toList) with
  | none => none
  | some out => some (0, (send_msg sendRet wire out).2)

/-- Function `chan_name_check(chan_name)`: `1` (rejected) when the first character is not `#` or
`sizeof(chan_name) > CHAN_LEN`, else `0`.  `chan_name` is a `char *`, so `sizeof(chan_name)` is
the size of a pointer, `ptrSize` (8 on LP64); `CHAN_LEN` comes from `irccd.h`.  The first
character of the empty string is its NUL. -/
def chan_name_check (ptrSize CHAN_LEN : Nat) (chan_name : CStr) : Int :=
  if chan_name.headD (Char.ofNat 0) ≠ '#' ∨ ptrSize > CHAN_LEN then 1 else 0

/-- The variables of `main` that the cases below read or write. -/
structure Daemon where
  nick : CStr
  host_serv : CStr
  channels : List CStr
  chan_name : CStr
  wire : List CStr
  deriving DecidableEq

/-- Result of one case of the `switch` in `main`. -/
inductive Step
  | cont (d : Daemon)
  | exit (code : Int)
  | undefined
  deriving DecidableEq

/-- Two consecutive iterations of the loop of `main`: the second case runs on the variables
the first one left, unless the first one ended the process or was undefined. -/
def Step.andThen (s : Step) (f : Daemon → Step) : Step :=
  match s with
  | Step.cont d => f d
  | Step.exit code => Step.exit code
  | Step.undefined => Step.undefined

/-- The case `JOIN_MOD` of `main` on the payload `pos`: `chan_name_check`, then `strcpy` into
`chan_name[CHAN_LEN]`, `sprintf` into `out[PIPE_BUF]`, `send_msg`, and `add_chan` when
`send_msg` returned a positive value.  `sendRet` is what `send(2)` returns, `alloc` whether
`malloc` succeeds. -/
def case_JOIN_MOD (ptrSize CHAN_LEN : Nat) (alloc : Bool) (sendRet : Int) (d : Daemon)
    (pos : CStr) : Step :=
  if chan_name_check ptrSize CHAN_LEN pos ≠ 0 then Step.cont d
  else
    match store CHAN_LEN pos with
    | none => Step.undefined
    | some chan_name =>
      match store PIPE_BUF ("JOIN ".toList ++ chan_name ++ "\r\n".toList) with
      | none => Step.undefined
      | some out =>
        if (send_msg sendRet d.wire out).1 > 0 then
          Step.cont { d with
            chan_name := chan_name
            wire := (send_msg sendRet d.wire out).2
            channels := (add_chan alloc d.channels pos).2 }
        else
          Step.cont { d with chan_name := chan_name, wire := (send_msg sendRet d.wire out).2 }

/-- The case `PART_MOD` of `main`: `strcpy`, `sprintf`, `send_msg`, and `rm_chan` when
`send_msg` returned a positive value. -/
def case_PART_MOD (CHAN_LEN : Nat) (sendRet : Int) (d : Daemon) (pos : CStr) : Step :=
  match store CHAN_LEN pos with
  | none => Step.undefined
  | some chan_name =>
    match store PIPE_BUF ("PART ".toList ++ chan_name ++ "\r\n".toList) with
    | none => Step.undefined
    | some out =>
      if (send_msg sendRet d.wire out).1 > 0 then
        Step.cont { d with
          chan_name := chan_name
          wire := (send_msg sendRet d.wire out).2
          channels := (rm_chan d.channels chan_name).2 }
      else
        Step.cont { d with chan_name := chan_name, wire := (send_msg sendRet d.wire out).2 }

/-- The case `CONN_MOD` of `main`.  `probeRet` is what `send(2)` returns for the `PING` probe
(sent only when the payload equals `host_serv`), `connOk` whether `sock_conn` returned 0, and
`r1`, `r2` what `send(2)` returns for the two login lines.  `IP_LEN` (from `irccd.h`) is the
size of `host_serv`.  The reader forked at the end does not write to the socket by itself and
is not part of the step. -/
def case_CONN_MOD (IP_LEN : Nat) (probeRet : Int) (connOk : Bool) (r1 r2 : Int) (d : Daemon)
    (pos : CStr) : Step :=
  if d.host_serv = pos ∧ probeRet ≠ -1 then
    Step.cont { d with wire := (send_msg probeRet d.wire "PING\r\n".toList).2 }
  else
    let wire0 := if d.host_serv = pos then (send_msg probeRet d.wire "PING\r\n".toList).2
      else d.wire
    match store IP_LEN pos with
    | none => Step.undefined
    | some host =>
      if !connOk then Step.exit 1
      else
        match store PIPE_BUF ("NICK ".toList ++ d.nick ++ "\r\n".toList),
          store PIPE_BUF ("USER ".toList ++ d.nick ++ " 8 * :nick\r\n".toList) with
        | some out1, some out2 =>
          Step.cont { d with
            host_serv := host
            wire := (send_msg r2 (send_msg r1 wire0 out1).2 out2).2 }
        | _, _ => Step.undefined

end Fifo

/-! ## The `libistr` based variant (`src/irccd.c`) -/

namespace Istr

/-- An `istring` of `libistr`: a byte string with its length (it may hold any byte). -/
abbrev IString := List Char

/-- Constant `IRC_BUF_MAX` (line 31). -/
def IRC_BUF_MAX : Nat := 512

/-- Function `istr_len` of `libistr` (library outside the repository): the number of bytes. -/
def istr_len (s : IString) : Nat := s.length

/-- Function `istr_insert_bytes(s, index, bytes, n)` of `libistr`: `bytes` inserted at `index`.
Allocation is taken to succeed, so the result is never NULL. -/
def istr_insert_bytes (s : IString) (index : Nat) (bytes : List Char) : IString :=
  s.take index ++ bytes ++ s.drop index

/-- Function `istr_append_bytes(s, bytes, n)` of `libistr`: `bytes` appended. -/
def istr_append_bytes (s : IString) (bytes : List Char) : IString := s ++ bytes

/-- Function `istr_trunc(s, len)` of `libistr`: the string cut to at most `len` bytes, in place. -/
def istr_trunc (s : IString) (len : Nat) : IString := s.take len

/-- Function `send_msg(sockfd, msg)` (lines 116-129): the bytes handed to `send(2)`.  With allocation
succeeding `msg` is not NULL and the `return -1` branch is not taken. -/
def send_msg (msg : IString) : IString :=
  let msg1 := istr_insert_bytes msg 0 "PRIVMSG ".toList
  if istr_len msg1 > IRC_BUF_MAX then
    istr_append_bytes (istr_trunc msg1 (IRC_BUF_MAX - 2)) "\r\n".toList
  else msg1

/-- Function `read_line(sockfd, recvln)` (lines 131-142) over the bytes still to come from the socket:
the returned string (`none` for NULL, when `recv` does not deliver a byte) and the bytes left
unread. -/
def read_line : List Char → IString → Option IString × List Char
  | [], _ => (none, [])
  | c :: rest, recvln =>
    if c ≠ '\n' ∧ istr_len (istr_append_bytes recvln [c]) < IRC_BUF_MAX - 2 then
      read_line rest (istr_append_bytes recvln [c])
    else (some (istr_append_bytes recvln [c]), rest)

/-- Function `login(sockfd, nick, realname)` (lines 144-155): the bytes handed to `send(2)`. -/
def login (nick realname : IString) : IString :=
  send_msg
    (istr_append_bytes
      (List.append
        (istr_append_bytes
          (List.append
            (istr_append_bytes (List.append "USER ".toList nick) " 8 * :".toList)
            realname)
          "\r\nNICK ".toList)
        nick)
      "\r\n".toList)

end Istr

/-! ## Lemmas on the channel list -/

theorem add_chan_of_mem (alloc : Bool) (reg : List CStr) (x : CStr) (h : x ∈ reg) :
    Fifo.add_chan alloc reg x = (1, reg) := by
  induction reg with
  | nil => simp at h
  | cons c rest ih =>
    by_cases hc : c = x
    · simp [Fifo.add_chan, hc]
    · have hx : x ∈ rest := by
        rcases List.mem_cons.mp h with h1 | h1
        · exact absurd h1.symm hc
        · exact h1
      simp [Fifo.add_chan, hc, ih hx]

theorem add_chan_of_not_mem (reg : List CStr) (x : CStr) (h : x ∉ reg) :
    Fifo.add_chan true reg x = (0, reg ++ [x]) := by
  induction reg with
  | nil => simp [Fifo.add_chan]
  | cons c rest ih =>
    have hc : c ≠ x := fun e => h (by simp [e])
    have hx : x ∉ rest := fun e => h (List.mem_cons_of_mem _ e)
    simp [Fifo.add_chan, hc, ih hx]

theorem add_chan_failed_alloc (reg : List CStr) (x : CStr) (h : x ∉ reg) :
    Fifo.add_chan false reg x = (-1, reg) := by
  induction reg with
  | nil => simp [Fifo.add_chan]
  | cons c rest ih =>
    have hc : c ≠ x := fun e => h (by simp [e])
    have hx : x ∉ rest := fun e => h (List.mem_cons_of_mem _ e)
    simp [Fifo.add_chan, hc, ih hx]

theorem rm_chan_snd_eq_erase (reg : List CStr) (x : CStr) :
    (Fifo.rm_chan reg x).2 = reg.erase x := by
  induction reg with
  | nil => simp [Fifo.rm_chan]
  | cons c rest ih =>
    by_cases hc : c = x
    · simp [Fifo.rm_chan, hc]
    · simp [Fifo.rm_chan, hc, ih, List.erase_cons_tail]

theorem rm_chan_fst_of_mem (reg : List CStr) (x : CStr) (h : x ∈ reg) :
    (Fifo.rm_chan reg x).1 = 0 := by
  induction reg with
  | nil => simp at h
  | cons c rest ih =>
    by_cases hc : c = x
    · simp [Fifo.rm_chan, hc]
    · have hx : x ∈ rest := by
        rcases List.mem_cons.mp h with h1 | h1
        · exact absurd h1.symm hc
        · exact h1
      simp [Fifo.rm_chan, hc, ih hx]

theorem rm_chan_fst_of_not_mem (reg : List CStr) (x : CStr) (h : x ∉ reg) :
    (Fifo.rm_chan reg x).1 = 1 := by
  induction reg with
  | nil => simp [Fifo.rm_chan]
  | cons c rest ih =>
    have hc : c ≠ x := fun e => h (by simp [e])
    have hx : x ∉ rest := fun e => h (List.mem_cons_of_mem _ e)
    simp [Fifo.rm_chan, hc, ih hx]

/-- Names stay pairwise distinct in every reachable registry. -/
theorem reachable_nodup (reg : List CStr) (h : Fifo.Reachable reg) : reg.Nodup := by
  induction h with
  | empty => exact List.nodup_nil
  | add alloc reg x _ ih =>
    by_cases hx : x ∈ reg
    · rw [add_chan_of_mem alloc reg x hx]; exact ih
    · cases alloc
      · rw [add_chan_failed_alloc reg x hx]; exact ih
      · rw [add_chan_of_not_mem reg x hx]
        exact List.Nodup.append ih (List.nodup_singleton x) (by simpa using hx)
  | rm reg x _ ih =>
    rw [rm_chan_snd_eq_erase]; exact ih.erase x

theorem countP_eq_one_of_nodup (l : List CStr) (x : CStr) (hnd : l.Nodup) (hx : x ∈ l) :
    l.countP (fun c => decide (c = x)) = 1 := by
  induction l with
  | nil => simp at hx
  | cons c rest ih =>
    have hc := List.nodup_cons.mp hnd
    by_cases e : c = x
    · subst e
      have h0 : rest.countP (fun d => decide (d = c)) = 0 := by
        rw [List.countP_eq_zero]
        intro d hd
        simp only [decide_eq_true_eq]
        intro hdc
        exact hc.1 (hdc ▸ hd)
      simp [List.countP_cons, h0]
    · have hx2 : x ∈ rest := by
        rcases List.mem_cons.mp hx with h1 | h1
        · exact absurd h1.symm e
        · exact h1
      simp [List.countP_cons, e, ih hc.2 hx2]

theorem rm_chan_snd_eq_filter (l : List CStr) (x : CStr) (hnd : l.Nodup) :
    (Fifo.rm_chan l x).2 = l.filter (fun c => decide (c ≠ x)) := by
  induction l with
  | nil => simp [Fifo.rm_chan]
  | cons c rest ih =>
    have hc := List.nodup_cons.mp hnd
    by_cases e : c = x
    · subst e
      have hself : rest.filter (fun d => decide (d ≠ c)) = rest := by
        rw [List.filter_eq_self]
        intro d hd
        simp only [decide_eq_true_eq]
        intro hdc
        exact hc.1 (hdc ▸ hd)
      simp [Fifo.rm_chan]
      simpa using hself.symm
    · simp [Fifo.rm_chan, e, ih hc.2]

/-- In a reachable registry, after `add_chan` with a successful allocation the name is held
once, and a further `add_chan` of it returns `1` without change. -/
theorem add_chan_once_idem (reg : List CStr) (x : CStr) (h : Fifo.Reachable reg) :
    (Fifo.add_chan true reg x).2.countP (fun c => decide (c = x)) = 1 ∧
    (∀ alloc, Fifo.add_chan alloc (Fifo.add_chan true reg x).2 x
        = (1, (Fifo.add_chan true reg x).2)) := by
  have hnd := reachable_nodup reg h
  by_cases hx : x ∈ reg
  · rw [add_chan_of_mem true reg x hx]
    exact ⟨countP_eq_one_of_nodup reg x hnd hx, fun alloc => add_chan_of_mem alloc reg x hx⟩
  · rw [add_chan_of_not_mem reg x hx]
    have hnd2 : (reg ++ [x]).Nodup :=
      List.Nodup.append hnd (List.nodup_singleton x) (by simpa using hx)
    exact ⟨countP_eq_one_of_nodup _ x hnd2 (by simp),
      fun alloc => add_chan_of_mem alloc _ x (by simp)⟩

/-! ## C1, C2: the channel registry -/

/-- C1: in every registry reachable from the empty one by `add_chan` and `rm_chan`, and for
every name `x`: after `add_chan` (with `malloc` succeeding) the registry holds `x` exactly
once; a second `add_chan` of `x` right afterwards returns `1` and leaves the sequence of names
as it is (whatever `malloc` would do); and when `x` was absent the first call returns `0` and
the new registry is the old one followed by `x`. -/
theorem add_chan_once_and_idempotent (reg : List CStr) (x : CStr) (h : Fifo.Reachable reg) :
    (Fifo.add_chan true reg x).2.countP (fun c => decide (c = x)) = 1 ∧
    (∀ alloc, Fifo.add_chan alloc (Fifo.add_chan true reg x).2 x
        = (1, (Fifo.add_chan true reg x).2)) ∧
    (x ∉ reg → Fifo.add_chan true reg x = (0, reg ++ [x])) :=
  ⟨(add_chan_once_idem reg x h).1, (add_chan_once_idem reg x h).2,
    fun hx => add_chan_of_not_mem reg x hx⟩

/-- Witness of C1: the registry `#a, #b` built by two `add_chan` calls, and the name `#c`. -/
theorem add_chan_once_and_idempotent_witness :
    Fifo.Reachable ["#a".toList, "#b".toList] ∧
    (Fifo.add_chan true ["#a".toList, "#b".toList] "#c".toList).2
      = ["#a".toList, "#b".toList, "#c".toList] ∧
    ((Fifo.add_chan true ["#a".toList, "#b".toList] "#c".toList).2.countP
        (fun c => decide (c = "#c".toList)) = 1 ∧
    (∀ alloc, Fifo.add_chan alloc
        (Fifo.add_chan true ["#a".toList, "#b".toList] "#c".toList).2 "#c".toList
        = (1, (Fifo.add_chan true ["#a".toList, "#b".toList] "#c".toList).2)) ∧
    ("#c".toList ∉ ["#a".toList, "#b".toList] →
      Fifo.add_chan true ["#a".toList, "#b".toList] "#c".toList
        = (0, ["#a".toList, "#b".toList] ++ ["#c".toList]))) :=
  ⟨Fifo.Reachable.add true ["#a".toList] "#b".toList
      (Fifo.Reachable.add true [] "#a".toList Fifo.Reachable.empty),
    by decide,
    add_chan_once_and_idempotent ["#a".toList, "#b".toList] "#c".toList
      (Fifo.Reachable.add true ["#a".toList] "#b".toList
        (Fifo.Reachable.add true [] "#a".toList Fifo.Reachable.empty))⟩

/-- C2: in every registry reachable from the empty one, `add_chan` of `x` (with `malloc`
succeeding) followed by `rm_chan` of `x` gives a registry that does not hold `x`, `rm_chan`
returns `0`, and what is left is the original registry without `x`, in the original order. -/
theorem add_then_rm_chan (reg : List CStr) (x : CStr) (h : Fifo.Reachable reg) :
    x ∉ (Fifo.rm_chan (Fifo.add_chan true reg x).2 x).2 ∧
    (Fifo.rm_chan (Fifo.add_chan true reg x).2 x).1 = 0 ∧
    (Fifo.rm_chan (Fifo.add_chan true reg x).2 x).2 = reg.filter (fun c => decide (c ≠ x)) := by
  have hnd := reachable_nodup reg h
  have hfilter := fun l hl => rm_chan_snd_eq_filter l x hl
  by_cases hx : x ∈ reg
  · rw [add_chan_of_mem true reg x hx]
    refine ⟨?_, rm_chan_fst_of_mem reg x hx, hfilter reg hnd⟩
    rw [hfilter reg hnd]; simp
  · rw [add_chan_of_not_mem reg x hx]
    have hnd2 : (reg ++ [x]).Nodup :=
      List.Nodup.append hnd (List.nodup_singleton x) (by simpa using hx)
    refine ⟨?_, rm_chan_fst_of_mem _ x (by simp), ?_⟩
    · rw [hfilter _ hnd2]; simp
    · rw [hfilter _ hnd2]; simp

/-- Witness of C2: the registry `#a, #b` and the name `#a`. -/
theorem add_then_rm_chan_witness :
    Fifo.Reachable ["#a".toList, "#b".toList] ∧
    Fifo.rm_chan (Fifo.add_chan true ["#a".toList, "#b".toList] "#a".toList).2 "#a".toList
      = (0, ["#b".toList]) ∧
    ("#a".toList ∉
      (Fifo.rm_chan (Fifo.add_chan true ["#a".toList, "#b".toList] "#a".toList).2
        "#a".toList).2 ∧
    (Fifo.rm_chan (Fifo.add_chan true ["#a".toList, "#b".toList] "#a".toList).2
        "#a".toList).1 = 0 ∧
    (Fifo.rm_chan (Fifo.add_chan true ["#a".toList, "#b".toList] "#a".toList).2
        "#a".toList).2
      = ["#a".toList, "#b".toList].filter (fun c => decide (c ≠ "#a".toList))) :=
  ⟨Fifo.Reachable.add true ["#a".toList] "#b".toList
      (Fifo.Reachable.add true [] "#a".toList Fifo.Reachable.empty),
    by decide,
    add_then_rm_chan ["#a".toList, "#b".toList] "#a".toList
      (Fifo.Reachable.add true ["#a".toList] "#b".toList
        (Fifo.Reachable.add true [] "#a".toList Fifo.Reachable.empty))⟩

/-! ## C8: the retry loop of the reader -/

theorem spawn_reader_exited (P : Int) (rs : List Int) :
    Fifo.spawn_reader P Fifo.Reader.exited rs = Fifo.Reader.exited := by
  cases rs <;> rfl

theorem spawn_reader_append (P : Int) (s : Fifo.Reader) (as bs : List Int) :
    Fifo.spawn_reader P s (as ++ bs) = Fifo.spawn_reader P (Fifo.spawn_reader P s as) bs := by
  induction as generalizing s with
  | nil => cases s <;> rfl
  | cons a as ih =>
    cases s with
    | exited => simp [Fifo.spawn_reader, spawn_reader_exited]
    | running t => simp [Fifo.spawn_reader, ih]

theorem spawn_reader_snoc_running (P : Int) (rs : List Int) (t r : Int)
    (h : Fifo.spawn_reader P (Fifo.Reader.running 0) rs = Fifo.Reader.running t) :
    Fifo.spawn_reader P (Fifo.Reader.running 0) (rs ++ [r]) = Fifo.reader_iter P t r := by
  rw [spawn_reader_append, h]
  show Fifo.spawn_reader P (Fifo.reader_iter P t r) [] = Fifo.reader_iter P t r
  cases Fifo.reader_iter P t r <;> rfl

theorem trailingFailures_snoc (rs : List Int) (r : Int) :
    Fifo.trailingFailures (rs ++ [r]) = if r ≤ 0 then Fifo.trailingFailures rs + 1 else 0 := by
  by_cases hr : r ≤ 0 <;> simp [Fifo.trailingFailures, List.takeWhile_cons, hr]

/-- While the reader runs, `timer` is the number of failed reads at the end of the sequence read
so far, and it is below `PING_TIMEOUT`. -/
theorem spawn_reader_running_timer (P : Int) (hP : 0 < P) (rs : List Int) :
    ∀ t, Fifo.spawn_reader P (Fifo.Reader.running 0) rs = Fifo.Reader.running t →
      t = Fifo.trailingFailures rs ∧ t < P := by
  induction rs using List.reverseRecOn with
  | nil =>
    intro t h
    simp only [Fifo.spawn_reader, Fifo.Reader.running.injEq] at h
    subst h
    exact ⟨by simp [Fifo.trailingFailures], hP⟩
  | append_singleton rs r ih =>
    intro t h
    cases hs : Fifo.spawn_reader P (Fifo.Reader.running 0) rs with
    | exited =>
      rw [spawn_reader_append, hs, spawn_reader_exited] at h
      cases h
    | running t0 =>
      obtain ⟨h1, h2⟩ := ih t0 hs
      rw [spawn_reader_snoc_running P rs t0 r hs] at h
      rw [trailingFailures_snoc]
      unfold Fifo.reader_iter at h
      by_cases hr : r ≤ 0
      · simp only [hr, if_true] at h ⊢
        split at h
        · cases h
        · simp only [Fifo.Reader.running.injEq] at h
          subst h
          constructor
          · rw [h1]; push_cast; rfl
          · omega
      · simp only [hr, if_false] at h ⊢
        split at h
        · cases h
        · simp only [Fifo.Reader.running.injEq] at h
          subst h
          exact ⟨by simp, hP⟩

/-- One more read while the reader runs: it leaves through `exit(1)` exactly when the failed
reads at the end of the sequence now number `PING_TIMEOUT`. -/
theorem spawn_reader_snoc_exited_iff (P : Int) (hP : 0 < P) (rs : List Int) (t r : Int)
    (h : Fifo.spawn_reader P (Fifo.Reader.running 0) rs = Fifo.Reader.running t) :
    Fifo.spawn_reader P (Fifo.Reader.running 0) (rs ++ [r]) = Fifo.Reader.exited ↔
      (Fifo.trailingFailures (rs ++ [r]) : Int) = P := by
  obtain ⟨h1, h2⟩ := spawn_reader_running_timer P hP rs t h
  rw [spawn_reader_snoc_running P rs t r h, trailingFailures_snoc]
  unfold Fifo.reader_iter
  by_cases hr : r ≤ 0
  · simp only [hr, if_true]
    constructor
    · intro he
      split at he
      · push_cast; omega
      · cases he
    · intro he
      push_cast at he
      rw [if_pos (by omega)]
  · simp only [hr, if_false]
    constructor
    · intro he
      split at he
      · omega
      · cases he
    · intro he
      simp only [Nat.cast_zero] at he
      omega

theorem spawn_reader_exited_iff (P : Int) (hP : 0 < P) (rs : List Int) :
    Fifo.spawn_reader P (Fifo.Reader.running 0) rs = Fifo.Reader.exited ↔
      ∃ k, k ≤ rs.length ∧ (Fifo.trailingFailures (rs.take k) : Int) = P := by
  induction rs using List.reverseRecOn with
  | nil =>
    constructor
    · intro h; simp [Fifo.spawn_reader] at h
    · rintro ⟨k, hk, he⟩
      simp [Fifo.trailingFailures] at he
      omega
  | append_singleton rs r ih =>
    cases hs : Fifo.spawn_reader P (Fifo.Reader.running 0) rs with
    | exited =>
      have hx : Fifo.spawn_reader P (Fifo.Reader.running 0) (rs ++ [r]) = Fifo.Reader.exited := by
        rw [spawn_reader_append, hs, spawn_reader_exited]
      obtain ⟨k, hk, he⟩ := ih.mp hs
      refine ⟨fun _ => ⟨k, ?_, ?_⟩, fun _ => hx⟩
      · simp only [List.length_append, List.length_singleton]; omega
      · rw [List.take_append_of_le_length hk]; exact he
    | running t =>
      have hiff := spawn_reader_snoc_exited_iff P hP rs t r hs
      constructor
      · intro hx
        refine ⟨(rs ++ [r]).length, le_refl _, ?_⟩
        rw [List.take_length]; exact hiff.mp hx
      · rintro ⟨k, hk, he⟩
        by_cases hkl : k ≤ rs.length
        · rw [List.take_append_of_le_length hkl] at he
          have := ih.mpr ⟨k, hkl, he⟩
          rw [hs] at this
          cases this
        · have hk2 : (rs ++ [r]).length ≤ k := by
            simp only [List.length_append, List.length_singleton] at hk ⊢; omega
          rw [List.take_of_length_le hk2] at he
          exact hiff.mpr he

/-- C8: the loop of `spawn_reader`, started with `timer = 0` and fed the results `rs` of
`read_msg`, for every `PING_TIMEOUT > 0` (300 in `src/irccd.c`).  While the reader runs, the
counter equals the number of failed reads (`<= 0`) at the end of `rs` and is below
`PING_TIMEOUT`; one more successful read leaves the counter at zero; one more read makes the
reader exit if and only if the failed reads at the end of the sequence then number exactly
`PING_TIMEOUT`; the reader has exited after `rs` if and only if some prefix of `rs` ends in
exactly `PING_TIMEOUT` failed reads; and once exited it stays so whatever follows. -/
theorem reader_retry_policy (P : Int) (hP : 0 < P) (rs : List Int) :
    (∀ t, Fifo.spawn_reader P (Fifo.Reader.running 0) rs = Fifo.Reader.running t →
      t = Fifo.trailingFailures rs ∧ t < P) ∧
    (∀ t r, Fifo.spawn_reader P (Fifo.Reader.running 0) rs = Fifo.Reader.running t →
      (0 < r →
        Fifo.spawn_reader P (Fifo.Reader.running 0) (rs ++ [r]) = Fifo.Reader.running 0) ∧
      (Fifo.spawn_reader P (Fifo.Reader.running 0) (rs ++ [r]) = Fifo.Reader.exited ↔
        (Fifo.trailingFailures (rs ++ [r]) : Int) = P)) ∧
    (Fifo.spawn_reader P (Fifo.Reader.running 0) rs = Fifo.Reader.exited ↔
      ∃ k, k ≤ rs.length ∧ (Fifo.trailingFailures (rs.take k) : Int) = P) ∧
    (∀ more, Fifo.spawn_reader P (Fifo.Reader.running 0) rs = Fifo.Reader.exited →
      Fifo.spawn_reader P (Fifo.Reader.running 0) (rs ++ more) = Fifo.Reader.exited) := by
  refine ⟨spawn_reader_running_timer P hP rs, ?_, spawn_reader_exited_iff P hP rs, ?_⟩
  · intro t r h
    refine ⟨fun hr => ?_, spawn_reader_snoc_exited_iff P hP rs t r h⟩
    rw [spawn_reader_snoc_running P rs t r h]
    unfold Fifo.reader_iter
    have hr2 : ¬ r ≤ 0 := by omega
    simp only [hr2, if_false]
    rw [if_neg (by omega)]
  · intro more h
    rw [spawn_reader_append, h, spawn_reader_exited]

/-- Witness of C8: `PING_TIMEOUT = 300` and the reads `-1, 0, 5, -1`. -/
theorem reader_retry_policy_witness :
    (0 : Int) < 300 ∧
    Fifo.spawn_reader 300 (Fifo.Reader.running 0) [-1, 0, 5, -1] = Fifo.Reader.running 1 ∧
    ((∀ t, Fifo.spawn_reader 300 (Fifo.Reader.running 0) [-1, 0, 5, -1]
        = Fifo.Reader.running t → t = Fifo.trailingFailures [-1, 0, 5, -1] ∧ t < 300) ∧
    (∀ t r, Fifo.spawn_reader 300 (Fifo.Reader.running 0) [-1, 0, 5, -1]
        = Fifo.Reader.running t →
      (0 < r → Fifo.spawn_reader 300 (Fifo.Reader.running 0) ([-1, 0, 5, -1] ++ [r])
        = Fifo.Reader.running 0) ∧
      (Fifo.spawn_reader 300 (Fifo.Reader.running 0) ([-1, 0, 5, -1] ++ [r])
        = Fifo.Reader.exited ↔
        (Fifo.trailingFailures ([-1, 0, 5, -1] ++ [r]) : Int) = 300)) ∧
    (Fifo.spawn_reader 300 (Fifo.Reader.running 0) [-1, 0, 5, -1] = Fifo.Reader.exited ↔
      ∃ k, k ≤ [(-1 : Int), 0, 5, -1].length ∧
        (Fifo.trailingFailures (([-1, 0, 5, -1] : List Int).take k) : Int) = 300) ∧
    (∀ more, Fifo.spawn_reader 300 (Fifo.Reader.running 0) [-1, 0, 5, -1]
        = Fifo.Reader.exited →
      Fifo.spawn_reader 300 (Fifo.Reader.running 0) ([-1, 0, 5, -1] ++ more)
        = Fifo.Reader.exited)) :=
  ⟨by decide, by decide, reader_retry_policy 300 (by decide) [-1, 0, 5, -1]⟩

/-- The reader fed `PING_TIMEOUT = 300` failed reads in a row exits, and does not exit on the
first 299 of them. -/
theorem reader_exits_after_300 :
    Fifo.spawn_reader 300 (Fifo.Reader.running 0) (List.replicate 300 (-1))
      = Fifo.Reader.exited ∧
    Fifo.spawn_reader 300 (Fifo.Reader.running 0) (List.replicate 299 (-1))
      = Fifo.Reader.running 299 := by
  constructor <;> rfl

/-! ## C3, C9: the case `JOIN_MOD` -/

/-- C3, as stated, fails: with `CHAN_LEN = 200`, 8-byte pointers and `send` returning 12 both
times, processing `Join("#test")` twice from the initial variables of `main` hands the line
`JOIN #test` to the socket twice (the registry holds `#test` once). -/
theorem join_twice_sends_two_lines :
    (Fifo.case_JOIN_MOD 8 200 true 12
        { nick := "iwakura_lain".toList, host_serv := "162.213.39.42".toList,
          channels := [], chan_name := [], wire := [] } "#test".toList).andThen
      (fun d1 => Fifo.case_JOIN_MOD 8 200 true 12 d1 "#test".toList)
    = Fifo.Step.cont
        { nick := "iwakura_lain".toList, host_serv := "162.213.39.42".toList,
          channels := ["#test".toList], chan_name := "#test".toList,
          wire := ["JOIN #test\r\n".toList, "JOIN #test\r\n".toList] } ∧
    (["JOIN #test\r\n".toList, "JOIN #test\r\n".toList] : List CStr).countP
      (fun l => decide (l = "JOIN #test\r\n".toList)) ≠ 1 := by
  decide

theorem case_JOIN_MOD_accepted (ptrSize CHAN_LEN : Nat) (alloc : Bool) (r : Int)
    (d : Fifo.Daemon) (x : CStr) (hvalid : Fifo.chan_name_check ptrSize CHAN_LEN x = 0)
    (hlen : x.length < CHAN_LEN) (hbuf : x.length + 7 < Fifo.PIPE_BUF) (hr : 0 < r) :
    Fifo.case_JOIN_MOD ptrSize CHAN_LEN alloc r d x
      = Fifo.Step.cont { d with
          chan_name := x
          wire := d.wire ++ ["JOIN ".toList ++ x ++ "\r\n".toList]
          channels := (Fifo.add_chan alloc d.channels x).2 } := by
  have hfit : ("JOIN ".toList ++ x ++ "\r\n".toList).length < Fifo.PIPE_BUF := by
    have h5 : "JOIN ".toList.length = 5 := by decide
    have h2 : "\r\n".toList.length = 2 := by decide
    simp only [List.length_append, h5, h2]
    omega
  unfold Fifo.case_JOIN_MOD
  simp only [hvalid, ne_eq, not_true_eq_false, if_false, Fifo.store, hlen, if_true, hfit,
    Fifo.send_msg, gt_iff_lt, hr]

/-- C3, amended: for every name `x` that `chan_name_check` accepts and that fits `chan_name`
and `out`, every state whose registry is reachable, and `send` returning a positive value both
times (`malloc` succeeding in the first `add_chan`): processing `Join(x)` twice hands the line
`JOIN x` to the socket twice, once per record, and leaves exactly one registry entry for `x`. -/
theorem join_twice_one_entry (ptrSize CHAN_LEN : Nat) (alloc2 : Bool) (r1 r2 : Int)
    (d : Fifo.Daemon) (x : CStr) (hvalid : Fifo.chan_name_check ptrSize CHAN_LEN x = 0)
    (hlen : x.length < CHAN_LEN) (hbuf : x.length + 7 < Fifo.PIPE_BUF)
    (hr1 : 0 < r1) (hr2 : 0 < r2) (hreach : Fifo.Reachable d.channels) :
    (Fifo.case_JOIN_MOD ptrSize CHAN_LEN true r1 d x).andThen
      (fun d1 => Fifo.case_JOIN_MOD ptrSize CHAN_LEN alloc2 r2 d1 x)
    = Fifo.Step.cont { d with
        chan_name := x
        wire := d.wire ++ ["JOIN ".toList ++ x ++ "\r\n".toList,
          "JOIN ".toList ++ x ++ "\r\n".toList]
        channels := (Fifo.add_chan true d.channels x).2 } ∧
    (Fifo.add_chan true d.channels x).2.countP (fun c => decide (c = x)) = 1 := by
  have hidem := add_chan_once_idem d.channels x hreach
  refine ⟨?_, hidem.1⟩
  rw [case_JOIN_MOD_accepted ptrSize CHAN_LEN true r1 d x hvalid hlen hbuf hr1]
  simp only [Fifo.Step.andThen]
  rw [case_JOIN_MOD_accepted ptrSize CHAN_LEN alloc2 r2 _ x hvalid hlen hbuf hr2]
  simp [hidem.2 alloc2]

/-- Witness of the amended C3: `#test` with `CHAN_LEN = 200` on the initial variables. -/
theorem join_twice_one_entry_witness :
    (Fifo.chan_name_check 8 200 "#test".toList = 0 ∧ "#test".toList.length < 200 ∧
      "#test".toList.length + 7 < Fifo.PIPE_BUF ∧ (0 : Int) < 12 ∧
      Fifo.Reachable ([] : List CStr)) ∧
    ((Fifo.case_JOIN_MOD 8 200 true 12
        { nick := "iwakura_lain".toList, host_serv := "162.213.39.42".toList,
          channels := [], chan_name := [], wire := [] } "#test".toList).andThen
      (fun d1 => Fifo.case_JOIN_MOD 8 200 true 12 d1 "#test".toList)
    = Fifo.Step.cont
        { nick := "iwakura_lain".toList, host_serv := "162.213.39.42".toList,
          channels := (Fifo.add_chan true [] "#test".toList).2, chan_name := "#test".toList,
          wire := [] ++ ["JOIN ".toList ++ "#test".toList ++ "\r\n".toList,
            "JOIN ".toList ++ "#test".toList ++ "\r\n".toList] } ∧
    (Fifo.add_chan true [] "#test".toList).2.countP
      (fun c => decide (c = "#test".toList)) = 1) :=
  ⟨⟨by decide, by decide, by decide, by decide, Fifo.Reachable.empty⟩,
    join_twice_one_entry 8 200 true 12 12
      { nick := "iwakura_lain".toList, host_serv := "162.213.39.42".toList,
        channels := [], chan_name := [], wire := [] } "#test".toList
      (by decide) (by decide) (by decide) (by decide) (by decide) Fifo.Reachable.empty⟩

/-- C9, the code at the failing input: whenever a pointer is not larger than `CHAN_LEN`, the
payload `#aaa...a` with `CHAN_LEN` letters `a` is longer than `CHAN_LEN`, yet
`chan_name_check` returns `0` for it, and the case `JOIN_MOD` does not stop there: it goes on
to `strcpy` the payload past the end of `chan_name[CHAN_LEN]`. -/
theorem chan_name_check_accepts_long_name (ptrSize CHAN_LEN : Nat) (alloc : Bool) (r : Int)
    (d : Fifo.Daemon) (h : ptrSize ≤ CHAN_LEN) :
    CHAN_LEN < ('#' :: List.replicate CHAN_LEN 'a').length ∧
    Fifo.chan_name_check ptrSize CHAN_LEN ('#' :: List.replicate CHAN_LEN 'a') = 0 ∧
    Fifo.case_JOIN_MOD ptrSize CHAN_LEN alloc r d ('#' :: List.replicate CHAN_LEN 'a')
      = Fifo.Step.undefined := by
  have hc : Fifo.chan_name_check ptrSize CHAN_LEN ('#' :: List.replicate CHAN_LEN 'a') = 0 := by
    have : ¬ ptrSize > CHAN_LEN := by omega
    simp [Fifo.chan_name_check, this]
  refine ⟨by simp, hc, ?_⟩
  unfold Fifo.case_JOIN_MOD
  simp [hc, Fifo.store]

/-- Witness of C9: 8-byte pointers and `CHAN_LEN = 200`. -/
theorem chan_name_check_accepts_long_name_witness :
    8 ≤ 200 ∧
    200 < ('#' :: List.replicate 200 'a').length ∧
    Fifo.chan_name_check 8 200 ('#' :: List.replicate 200 'a') = 0 ∧
    Fifo.case_JOIN_MOD 8 200 true 12
        { nick := [], host_serv := [], channels := [], chan_name := [], wire := [] }
        ('#' :: List.replicate 200 'a')
      = Fifo.Step.undefined :=
  ⟨by decide, chan_name_check_accepts_long_name 8 200 true 12
    { nick := [], host_serv := [], channels := [], chan_name := [], wire := [] } (by decide)⟩

/-! ## C6, C10: the keepalive reply of `read_msg` -/

/-- C6, the code on a keepalive request: for every token `t` (short enough for `out`) and
every positive result of `read`, on the line `PING t` followed by CR LF `read_msg` hands to the
socket `PONG t` followed by CR LF CR LF: the echoed remainder of the line still carries the CR
LF of the request and the format string adds a second one. -/
theorem read_msg_pong_double_crlf (n sendRet : Int) (t : CStr) (wire : List CStr)
    (hn : 0 < n) (hfit : t.length + 9 < Fifo.PIPE_BUF) :
    Fifo.read_msg n sendRet ("PING ".toList ++ t ++ "\r\n".toList) wire
      = some (n, wire ++ ["PONG ".toList ++ t ++ "\r\n\r\n".toList]) := by
  have e1 : "PING ".toList = ['P', 'I', 'N', 'G', ' '] := rfl
  have e2 : "PING".toList = ['P', 'I', 'N', 'G'] := rfl
  have e3 : " ".toList = [' '] := rfl
  have e4 : "PONG ".toList = ['P', 'O', 'N', 'G', ' '] := rfl
  have e5 : "\r\n".toList = ['\r', '\n'] := rfl
  have e6 : "\r\n\r\n".toList = ['\r', '\n', '\r', '\n'] := rfl
  have hP : Fifo.strstr ("PING ".toList ++ t ++ "\r\n".toList) "PING".toList
      = some ("PING ".toList ++ t ++ "\r\n".toList) := by
    rw [e1, e2]
    simp [Fifo.strstr, List.isPrefixOf]
  have hS : Fifo.strstr ("PING ".toList ++ t ++ "\r\n".toList) " ".toList
      = some (' ' :: (t ++ "\r\n".toList)) := by
    rw [e1, e3]
    simp [Fifo.strstr, List.isPrefixOf]
  have hlen : ("PONG ".toList ++ (' ' :: (t ++ "\r\n".toList)).tail ++ "\r\n".toList).length
      < Fifo.PIPE_BUF := by
    rw [e4, e5]
    simp only [List.tail_cons, List.length_append, List.length_cons, List.length_nil]
    omega
  unfold Fifo.read_msg
  rw [hP, hS]
  simp only [hn, Option.isSome_some, and_self, if_true, Fifo.store, hlen, Fifo.send_msg]
  rw [e4, e5, e6]
  simp

/-- Witness of C6: the request `PING :abc`; the reply handed to the socket is `PONG :abc`
followed by two CR LF. -/
theorem read_msg_pong_double_crlf_witness :
    ((0 : Int) < 11 ∧ ":abc".toList.length + 9 < Fifo.PIPE_BUF) ∧
    Fifo.read_msg 11 15 "PING :abc\r\n".toList []
      = some (11, ["PONG :abc\r\n\r\n".toList]) ∧
    Fifo.read_msg 11 15 ("PING ".toList ++ ":abc".toList ++ "\r\n".toList) []
      = some (11, [] ++ ["PONG ".toList ++ ":abc".toList ++ "\r\n\r\n".toList]) :=
  ⟨⟨by decide, by decide⟩, by decide,
    read_msg_pong_double_crlf 11 15 ":abc".toList [] (by decide) (by decide)⟩

/-- C10, the code at the failing input: a `PRIVMSG` line whose text holds the letters `PING`
makes `read_msg` hand a `PONG` line to the socket, echoing what follows the first space. -/
theorem read_msg_pong_on_privmsg :
    Fifo.read_msg 29 31 ":bob PRIVMSG #chan :PING me\r\n".toList []
      = some (29, ["PONG PRIVMSG #chan :PING me\r\n\r\n".toList]) := by
  decide

/-! ## C7: the login lines -/

/-- C7, the code at `nick = realname = "user"`: `sendlogin` and the case `CONN_MOD` of
`src/src/irccd.c` send `USER user 8 * :nick`, the realname being the literal `nick`; `login` of
`src/irccd.c` hands one buffer to `send` that starts with `PRIVMSG ` and has the `USER` line
before the `NICK` line. -/
theorem login_lines_at_user :
    Fifo.sendlogin 34 [] "user".toList "user".toList
      = some (0, ["NICK user\r\nUSER user 8 * :nick\r\n".toList]) ∧
    Fifo.case_CONN_MOD 32 (-1) true 11 22
        { nick := "user".toList, host_serv := "162.213.39.42".toList,
          channels := [], chan_name := [], wire := [] } "185.30.166.38".toList
      = Fifo.Step.cont
        { nick := "user".toList, host_serv := "185.30.166.38".toList,
          channels := [], chan_name := [],
          wire := ["NICK user\r\n".toList, "USER user 8 * :nick\r\n".toList] } ∧
    Istr.login "user".toList "user".toList
      = "PRIVMSG USER user 8 * :user\r\nNICK user\r\n".toList := by
  decide

/-! ## C4, C5: framing and line extraction in `src/irccd.c` -/

/-- C4, as stated, fails: for the body `hi` the bytes handed to the socket are `PRIVMSG hi`,
which do not end with CR LF. -/
theorem send_msg_short_no_crlf :
    Istr.send_msg "hi".toList = "PRIVMSG hi".toList ∧
    ¬ ("\r\n".toList <:+ Istr.send_msg "hi".toList) := by
  decide

theorem crlf_suffix_privmsg (msg : List Char) :
    ['\r', '\n'] <:+ 'P' :: 'R' :: 'I' :: 'V' :: 'M' :: 'S' :: 'G' :: ' ' :: msg ↔
      ['\r', '\n'] <:+ msg := by
  simp [List.suffix_cons_iff]

theorem send_msg_eq (msg : Istr.IString) :
    Istr.send_msg msg
      = if 512 < 8 + msg.length then ("PRIVMSG ".toList ++ msg).take 510 ++ "\r\n".toList
        else "PRIVMSG ".toList ++ msg := by
  have e : "PRIVMSG ".toList.length = 8 := by decide
  simp only [Istr.send_msg, Istr.istr_insert_bytes, Istr.istr_len, Istr.istr_append_bytes,
    Istr.istr_trunc, Istr.IRC_BUF_MAX, List.take_zero, List.drop_zero, List.nil_append,
    List.length_append, e, gt_iff_lt]

theorem send_msg_length_le (msg : Istr.IString) : (Istr.send_msg msg).length ≤ 512 := by
  have e : "PRIVMSG ".toList.length = 8 := by decide
  have e2 : "\r\n".toList.length = 2 := by decide
  rw [send_msg_eq]
  split
  · simp only [List.length_append, List.length_take, e, e2]; omega
  · simp only [List.length_append, e]; omega

theorem send_msg_crlf_iff (msg : Istr.IString) :
    "\r\n".toList <:+ Istr.send_msg msg ↔
      (512 < 8 + msg.length ∨ "\r\n".toList <:+ msg) := by
  rw [send_msg_eq]
  by_cases h : 512 < 8 + msg.length
  · simp only [h, if_true, true_or, iff_true]
    exact List.suffix_append _ _
  · simp only [h, if_false, false_or]
    exact crlf_suffix_privmsg msg

/-- C4, amended: for every body the bytes handed to the socket number at most 512; when the
prefixed message is longer than 512 bytes they are its first 510 bytes followed by CR LF, and
otherwise the prefixed message as it is; so they end with CR LF exactly when the prefixed
message was longer than 512 bytes or the body given by the caller already ends with CR LF. -/
theorem send_msg_frame (msg : Istr.IString) :
    (Istr.send_msg msg).length ≤ 512 ∧
    Istr.send_msg msg
      = (if 512 < 8 + msg.length then ("PRIVMSG ".toList ++ msg).take 510 ++ "\r\n".toList
        else "PRIVMSG ".toList ++ msg) ∧
    ("\r\n".toList <:+ Istr.send_msg msg ↔
      (512 < 8 + msg.length ∨ "\r\n".toList <:+ msg)) :=
  ⟨send_msg_length_le msg, send_msg_eq msg, send_msg_crlf_iff msg⟩

/-- A body of 600 bytes is cut: 510 bytes of the prefixed message, then CR LF, 512 in all. -/
theorem send_msg_long_example :
    (Istr.send_msg (List.replicate 600 'x')).length = 512 ∧
    "\r\n".toList <:+ Istr.send_msg (List.replicate 600 'x') := by
  have hl : (List.replicate 600 'x').length = 600 := List.length_replicate _ _
  have e : "PRIVMSG ".toList.length = 8 := by decide
  have e2 : "\r\n".toList.length = 2 := by decide
  refine ⟨?_, (send_msg_crlf_iff _).mpr (Or.inl (by rw [hl]; decide))⟩
  rw [send_msg_eq, hl, if_pos (by decide)]
  simp only [List.length_append, List.length_take, hl, e, e2]
  decide

theorem read_line_continue (c : Char) (rest : List Char) (acc : Istr.IString)
    (hc : c ≠ '\n') (hlt : acc.length + 1 < 510) :
    Istr.read_line (c :: rest) acc = Istr.read_line rest (acc ++ [c]) := by
  have h : c ≠ '\n' ∧ (acc ++ [c]).length < 512 - 2 := by
    refine ⟨hc, ?_⟩
    simp only [List.length_append, List.length_singleton]; omega
  simp only [Istr.read_line, Istr.istr_len, Istr.istr_append_bytes, Istr.IRC_BUF_MAX]
  rw [if_pos h]

theorem read_line_stop (c : Char) (rest : List Char) (acc : Istr.IString)
    (h : c = '\n' ∨ 510 ≤ acc.length + 1) :
    Istr.read_line (c :: rest) acc = (some (acc ++ [c]), rest) := by
  have hn : ¬ (c ≠ '\n' ∧ (acc ++ [c]).length < 512 - 2) := by
    simp only [List.length_append, List.length_singleton]
    rintro ⟨h1, h2⟩
    rcases h with h | h
    · exact h1 h
    · omega
  simp only [Istr.read_line, Istr.istr_len, Istr.istr_append_bytes, Istr.IRC_BUF_MAX]
  rw [if_neg hn]

theorem read_line_cap (pre rest : List Char) :
    ∀ acc : Istr.IString, (∀ c ∈ pre, c ≠ '\n') → 0 < pre.length →
      acc.length + pre.length = 510 →
      Istr.read_line (pre ++ rest) acc = (some (acc ++ pre), rest) := by
  induction pre with
  | nil => intro acc _ hpos; simp at hpos
  | cons c pre ih =>
    intro acc hnl _ hlen
    have hc : c ≠ '\n' := hnl c (List.mem_cons_self _ _)
    simp only [List.length_cons] at hlen
    rw [List.cons_append]
    by_cases hp : pre.length = 0
    · have hnil : pre = [] := List.length_eq_zero.mp hp
      subst hnil
      rw [read_line_stop c _ acc (Or.inr (by omega))]
      rfl
    · rw [read_line_continue c _ acc hc (by omega)]
      rw [ih (acc ++ [c]) (fun d hd => hnl d (List.mem_cons_of_mem _ hd)) (by omega)
        (by simp only [List.length_append, List.length_singleton]; omega)]
      rw [List.append_assoc]; rfl

theorem read_line_newline (pre : List Char) :
    ∀ acc : Istr.IString, (∀ c ∈ pre, c ≠ '\n') → acc.length + pre.length + 1 ≤ 510 →
      Istr.read_line (pre ++ ['\n']) acc = (some (acc ++ pre ++ ['\n']), []) := by
  induction pre with
  | nil =>
    intro acc _ _
    rw [List.nil_append, read_line_stop _ _ acc (Or.inl rfl), List.append_nil]
  | cons c pre ih =>
    intro acc hnl hlen
    have hc : c ≠ '\n' := hnl c (List.mem_cons_self _ _)
    simp only [List.length_cons] at hlen
    rw [List.cons_append, read_line_continue c _ acc hc (by omega)]
    rw [ih (acc ++ [c]) (fun d hd => hnl d (List.mem_cons_of_mem _ hd))
      (by simp only [List.length_append, List.length_singleton]; omega)]
    rw [List.append_assoc acc [c] pre]; rfl

/-- The round trip on the frames that `read_line` can hold: a frame `body` CR LF of at most 510
bytes with no line feed in `body`, read from an empty buffer, comes back whole and nothing of
the stream is left. -/
theorem read_line_roundtrip_le_510 (body : List Char) (hnl : ∀ c ∈ body, c ≠ '\n')
    (hlen : (body ++ "\r\n".toList).length ≤ 510) :
    Istr.read_line (body ++ "\r\n".toList) [] = (some (body ++ "\r\n".toList), []) := by
  have e : "\r\n".toList = ['\r', '\n'] := rfl
  rw [e] at hlen ⊢
  simp only [List.length_append, List.length_cons, List.length_nil] at hlen
  have h := read_line_newline (body ++ ['\r']) []
    (by
      intro c hc
      rcases List.mem_append.mp hc with h1 | h1
      · exact hnl c h1
      · simp only [List.mem_singleton] at h1; rw [h1]; decide)
    (by simp only [List.length_nil, List.length_append, List.length_singleton]; omega)
  simpa using h

/-- C5, the code at the failing input: the frame of 510 letters `a` followed by CR LF is 512
bytes long, ends with CR LF and holds no other line feed; `read_line`, started on an empty
buffer, returns its first 510 bytes only and leaves CR LF unread on the stream. -/
theorem read_line_stops_at_510 :
    (List.replicate 510 'a' ++ "\r\n".toList).length = 512 ∧
    "\r\n".toList <:+ List.replicate 510 'a' ++ "\r\n".toList ∧
    '\n' ∉ List.replicate 510 'a' ++ ['\r'] ∧
    Istr.read_line (List.replicate 510 'a' ++ "\r\n".toList) []
      = (some (List.replicate 510 'a'), "\r\n".toList) := by
  have hl : (List.replicate 510 'a').length = 510 := List.length_replicate _ _
  have e2 : "\r\n".toList.length = 2 := by decide
  have hmem : ∀ c ∈ List.replicate 510 'a', c ≠ '\n' := by
    intro c hc
    rw [List.eq_of_mem_replicate hc]; decide
  refine ⟨by rw [List.length_append, hl, e2], List.suffix_append _ _, ?_, ?_⟩
  · intro h
    rcases List.mem_append.mp h with h1 | h1
    · exact hmem _ h1 rfl
    · revert h1; decide
  · rw [read_line_cap (List.replicate 510 'a') "\r\n".toList [] hmem
      (by rw [hl]; decide) (by rw [hl]; rfl)]
    rfl

end Irccd
